import Mathlib

/-!
Verification of the weather ETL pipeline (`weather_etl.py`).

The embedding models the module's pure data flow:
* CSV rows and parsed JSON payloads as structures over strings;
* the per-city files and in-memory ledgers (`self.city_records`) as
  association lists inside an explicit `EtlState`;
* `extract_and_write` as a fold over the payload's forecast-day list;
* the `retry` decorator as a fuelled loop over an oracle of attempt
  outcomes, returning both the wrapper's result and the list of slept
  delays;
* `fetch_data` (whose body catches every exception and returns `None`)
  as an attempt function that never raises;
* the two orchestration passes as folds over the configured cities.
-/

set_option maxHeartbeats 1000000
set_option maxRecDepth 4000

/-- Replacement of every space by an underscore, modelling the Python
expression `s.replace(' ', '_')` applied to city names (a single-character
replacement, hence a character-wise map). -/
def replaceSpaces (s : String) : String :=
  String.mk (s.data.map (fun c => if c = ' ' then '_' else c))

/-- ASCII upper-casing of one character, modelling `str.upper` on the
ASCII mode strings (`"forecast"`, `"history"`) used by the pipeline. -/
def upperChar (c : Char) : Char :=
  if 'a' ≤ c ∧ c ≤ 'z' then Char.ofNat (c.toNat - 32) else c

/-- `mode.upper()` on ASCII strings. -/
def upperStr (s : String) : String :=
  String.mk (s.data.map upperChar)

/-- One data row of a city CSV file, columns as in `self.header`.
`Typ` stands for the source's `Type` column (`Type` is reserved in Lean). -/
structure Row where
  Date : String
  Location : String
  Country : String
  Min_Temp : String
  Max_Temp : String
  Humidity : String
  Air_Quality : String
  Typ : String
deriving DecidableEq

/-- The `day` sub-object of a forecast day (`day_data['day']`). -/
structure DayInfo where
  mintemp_c : String
  maxtemp_c : String
  avghumidity : String
deriving DecidableEq

/-- One entry of `data['forecast']['forecastday']`. -/
structure DayData where
  date : String
  day : DayInfo
deriving DecidableEq

/-- The `air_quality` sub-object; `co` may be absent. -/
structure AirQualityInfo where
  co : Option String
deriving DecidableEq

/-- The `current` sub-object; `air_quality` may be absent. -/
structure CurrentInfo where
  air_quality : Option AirQualityInfo
deriving DecidableEq

/-- The `location` sub-object. -/
structure LocationInfo where
  name : String
  country : String
deriving DecidableEq

/-- A parsed JSON payload, restricted to the fields the ETL reads.
`current` may be absent (`data.get('current', {})`). -/
structure Payload where
  location : LocationInfo
  current : Option CurrentInfo
  forecastday : List DayData
deriving DecidableEq

/-- Association-list lookup keyed by strings (dict lookup). -/
def lookupA {β : Type} : List (String × β) → String → Option β
  | [], _ => none
  | (k, v) :: t, c => if c = k then some v else lookupA t c

/-- Association-list update (dict assignment): replaces the first binding
of the key, or appends a new binding. -/
def setA {β : Type} (c : String) (v : β) : List (String × β) → List (String × β)
  | [] => [(c, v)]
  | (k, w) :: t => if c = k then (c, v) :: t else (k, w) :: setA c v t

/-- `data.get('current', {}).get('air_quality', {}).get('co', 'N/A')`. -/
def getAirQuality (p : Payload) : String :=
  match p.current with
  | none => "N/A"
  | some cur =>
    match cur.air_quality with
    | none => "N/A"
    | some aq =>
      match aq.co with
      | none => "N/A"
      | some v => v

/-- The raw `current.air_quality.co` chain as an optional value; `none`
means the air-quality value is absent at some level. -/
def coChain (p : Payload) : Option String :=
  Option.bind (Option.bind p.current CurrentInfo.air_quality) AirQualityInfo.co

/-- The row dictionary built for one forecast day (lines 93–102). -/
def mkRow (p : Payload) (mode : String) (d : DayData) : Row :=
  { Date := d.date
    Location := p.location.name
    Country := p.location.country
    Min_Temp := d.day.mintemp_c
    Max_Temp := d.day.maxtemp_c
    Humidity := d.day.avghumidity
    Air_Quality := getAirQuality p
    Typ := upperStr mode }

/-- `key = (row['Date'], row['Type'])`. -/
def keyOf (r : Row) : String × String := (r.Date, r.Typ)

/-- `city = data['location']['name'].replace(' ', '_')`. -/
def cityOf (p : Payload) : String := replaceSpaces p.location.name

/-- Ledger hydration from a file's rows (lines 83–88): the `(Date, Type)`
key of each row is kept only when `all(key)` holds, i.e. both components
are non-empty. -/
def hydrate (rows : List Row) : List (String × String) :=
  rows.filterMap (fun r =>
    if r.Date ≠ "" ∧ r.Typ ≠ "" then some (r.Date, r.Typ) else none)

/-- The working state of one `extract_and_write` call: the city file's
data rows and the city's in-memory ledger. -/
abbrev WState := List Row × List (String × String)

/-- Processing of one forecast day (lines 91–112): skip when the key is in
the ledger, otherwise append the row and add the key to the ledger. -/
def ewStep (p : Payload) (mode : String) (st : WState) (d : DayData) : WState :=
  let row := mkRow p mode d
  if keyOf row ∈ st.2 then st
  else (st.1 ++ [row], keyOf row :: st.2)

/-- The loop over `forecast_days`. -/
def ewFold (p : Payload) (mode : String) (days : List DayData) (st : WState) : WState :=
  days.foldl (ewStep p mode) st

/-- Whole-program state: per-city files (a present entry means the file
exists with its header written) and the per-city ledgers
(`self.city_records`). -/
structure EtlState where
  files : List (String × List Row)
  recs : List (String × List (String × String))
deriving DecidableEq

/-- The data rows of a city's file (`[]` when the file is absent). -/
def fileOf (σ : EtlState) (c : String) : List Row :=
  (lookupA σ.files c).getD []

/-- The city file's rows at the start of a call, after
`create_csv_for_city` ensured the file exists with its header. -/
def ewFile0 (σ : EtlState) (p : Payload) : List Row :=
  (lookupA σ.files (cityOf p)).getD []

/-- The city's ledger at the start of the loop (lines 80–88): the stored
set when the city was already touched, otherwise the hydration of the
existing file's rows. -/
def ewLed0 (σ : EtlState) (p : Payload) : List (String × String) :=
  match lookupA σ.recs (cityOf p) with
  | some L => L
  | none => hydrate (ewFile0 σ p)

/-- `extract_and_write(data, mode)` (lines 75–115): resolve/create the
city file, hydrate the ledger on first touch of the city, then process
each forecast day. -/
def extract_and_write (σ : EtlState) (p : Payload) (mode : String) : EtlState :=
  let res := ewFold p mode p.forecastday (ewFile0 σ p, ewLed0 σ p)
  ⟨setA (cityOf p) res.1 σ.files, setA (cityOf p) res.2 σ.recs⟩

/-- One successful fetch-then-extract unit of work. -/
def processUnit (σ : EtlState) (u : Payload × String) : EtlState :=
  extract_and_write σ u.1 u.2

/-- A sequence of extract-and-write units, processed in order. -/
def runUnits (units : List (Payload × String)) (σ : EtlState) : EtlState :=
  units.foldl processUnit σ

/-- The transient-network exception allow-list of the `retry` decorator. -/
inductive NetErr
  | connectTimeout
  | httpError
  | readTimeout
  | timeout
  | connectionError
deriving DecidableEq

/-- What the network does on one attempt of `fetch_data`'s body:
an allow-listed transient error, some other failure (e.g. JSON parsing),
or a successful response with a parsed payload. -/
inductive FetchOutcome
  | netErr (e : NetErr)
  | otherErr
  | ok (p : Payload)
deriving DecidableEq

/-- The observable behaviour of one call of a wrapped function: a
returned value, an allow-listed exception, or any other exception. -/
inductive AttemptResult (α : Type)
  | ret (a : α)
  | raiseAllowed (e : NetErr)
  | raiseOther
deriving DecidableEq

/-- The observable behaviour of the retry wrapper: a returned value, the
`None` returned after the loop exhausts every attempt, or a propagated
non-allow-listed exception. -/
inductive RetryOutcome (α : Type)
  | returned (a : α)
  | exhausted
  | raised
deriving DecidableEq

/-- The `for attempt in range(1, no_of_retries + 1)` loop of the `retry`
wrapper (lines 30–43), returning the outcome together with the list of
delays slept, in order. On an allow-listed exception the wrapper sleeps
the current delay and then doubles it when `backoff` is set. -/
def retryLoop {α : Type} (f : Nat → AttemptResult α) (backoff : Bool) :
    Nat → Nat → Nat → RetryOutcome α × List Nat
  | 0, _, _ => (.exhausted, [])
  | fuel + 1, attempt, delay =>
    match f attempt with
    | .ret a => (.returned a, [])
    | .raiseOther => (.raised, [])
    | .raiseAllowed _ =>
      let r := retryLoop f backoff fuel (attempt + 1) (if backoff then delay * 2 else delay)
      (r.1, delay :: r.2)

/-- `retry(no_of_retries, initial_delay, backoff)` applied to an attempt
oracle; attempts are numbered from 1. -/
def retry {α : Type} (noOfRetries initialDelay : Nat) (backoff : Bool)
    (f : Nat → AttemptResult α) : RetryOutcome α × List Nat :=
  retryLoop f backoff noOfRetries 1 initialDelay

/-- What `fetch_data`'s body returns for one network outcome: the parsed
payload on success, `None` otherwise (every exception is caught). -/
def parseOutcome : FetchOutcome → Option Payload
  | .ok p => some p
  | _ => none

/-- The body of `fetch_data` (lines 65–73) at attempt `i`: the
`try/except Exception` catches every exception — allow-listed network
errors included — logs it and returns `None`, so the body never raises. -/
def fetchAttempt (g : Nat → FetchOutcome) (i : Nat) : AttemptResult (Option Payload) :=
  .ret (parseOutcome (g i))

/-- `fetch_data` as decorated: `@retry(no_of_retries=3, initial_delay=2,
backoff=True)` around the body above, for a given network oracle `g`. -/
def fetch_data (g : Nat → FetchOutcome) : RetryOutcome (Option Payload) × List Nat :=
  retry 3 2 true (fetchAttempt g)

/-- Whether a network outcome is a successful response. -/
def isOk : FetchOutcome → Bool
  | .ok _ => true
  | _ => false

/-- Whether an attempt ends in an allow-listed exception. -/
def isAllowedFail {α : Type} : AttemptResult α → Bool
  | .raiseAllowed _ => true
  | _ => false

/-- One iteration of an orchestration loop body (lines 135–139): fetch,
and extract only when the fetched data is truthy. -/
def processCity (net : String → Nat → FetchOutcome) (mode : String)
    (σ : EtlState) (c : String) : EtlState :=
  match (fetch_data (net c)).1 with
  | .returned (some p) => extract_and_write σ p mode
  | _ => σ

/-- `run_forecast_etl` (lines 133–139) over a network oracle per city. -/
def run_forecast_etl (net : String → Nat → FetchOutcome) (cities : List String)
    (σ : EtlState) : EtlState :=
  cities.foldl (processCity net "forecast") σ

/-- `run_history_etl` (lines 141–150); the three computed dates are a
parameter, the network oracle is per city and date. -/
def run_history_etl (netH : String → String → Nat → FetchOutcome)
    (dates cities : List String) (σ : EtlState) : EtlState :=
  dates.foldl (fun τ ds => cities.foldl (processCity (fun c => netH c ds) "history") τ) σ

/-- `main` (lines 152–154): the forecast pass, then the history pass. -/
def runPipeline (netF : String → Nat → FetchOutcome)
    (netH : String → String → Nat → FetchOutcome)
    (dates cities : List String) (σ : EtlState) : EtlState :=
  run_history_etl netH dates cities (run_forecast_etl netF cities σ)

/-- The payload a fetch yields to the orchestrator, when truthy. -/
def fetchPayload (g : Nat → FetchOutcome) : Option Payload :=
  match (fetch_data g).1 with
  | .returned (some p) => some p
  | _ => none

/-- The successful units of the forecast pass, in order. -/
def forecastUnits (netF : String → Nat → FetchOutcome) (cities : List String) :
    List (Payload × String) :=
  cities.filterMap (fun c => (fetchPayload (netF c)).map (fun p => (p, "forecast")))

/-- The successful units of the history pass, in order. -/
def historyUnits (netH : String → String → Nat → FetchOutcome)
    (dates cities : List String) : List (Payload × String) :=
  dates.flatMap (fun ds =>
    cities.filterMap (fun c => (fetchPayload (fun i => netH c ds i)).map (fun p => (p, "history"))))

/-- All successful units of one whole pipeline run, in order. -/
def pipelineUnits (netF : String → Nat → FetchOutcome)
    (netH : String → String → Nat → FetchOutcome)
    (dates cities : List String) : List (Payload × String) :=
  forecastUnits netF cities ++ historyUnits netH dates cities

/-- No two rows share a `(Date, Type)` key. -/
def keysDistinct (rows : List Row) : Prop :=
  rows.Pairwise (fun r s => keyOf r ≠ keyOf s)

instance (rows : List Row) : Decidable (keysDistinct rows) := by
  unfold keysDistinct
  infer_instance

theorem lookupA_setA_self {β : Type} (c : String) (v : β) (l : List (String × β)) :
    lookupA (setA c v l) c = some v := by
  induction l with
  | nil => simp [setA, lookupA]
  | cons hd t ih =>
    obtain ⟨k, w⟩ := hd
    by_cases h : c = k
    · simp [setA, h, lookupA]
    · simp [setA, h, lookupA, ih]

theorem lookupA_setA_other {β : Type} {c c' : String} (h : c' ≠ c) (v : β)
    (l : List (String × β)) : lookupA (setA c v l) c' = lookupA l c' := by
  induction l with
  | nil => simp [setA, lookupA, h]
  | cons hd t ih =>
    obtain ⟨k, w⟩ := hd
    by_cases hck : c = k
    · subst hck
      simp [setA, lookupA, h]
    · by_cases hk : c' = k
      · simp [setA, hck, lookupA, hk]
      · simp [setA, hck, lookupA, hk, ih]

theorem setA_id {β : Type} {c : String} {v : β} {l : List (String × β)}
    (h : lookupA l c = some v) : setA c v l = l := by
  induction l with
  | nil => simp [lookupA] at h
  | cons hd t ih =>
    obtain ⟨k, w⟩ := hd
    by_cases hck : c = k
    · subst hck
      simp [lookupA] at h
      simp [setA, h]
    · simp [lookupA, hck] at h
      simp [setA, hck, ih h]

theorem keyOf_mkRow (p : Payload) (mode : String) (d : DayData) :
    keyOf (mkRow p mode d) = (d.date, upperStr mode) := rfl

theorem ewFold_nil (p : Payload) (mode : String) (st : WState) :
    ewFold p mode [] st = st := rfl

theorem ewFold_cons (p : Payload) (mode : String) (d : DayData) (ds : List DayData)
    (st : WState) : ewFold p mode (d :: ds) st = ewFold p mode ds (ewStep p mode st d) := rfl

theorem ewStep_mem (p : Payload) (mode : String) (st : WState) (d : DayData)
    (h : keyOf (mkRow p mode d) ∈ st.2) : ewStep p mode st d = st := by
  simp [ewStep, h]

theorem ewStep_new (p : Payload) (mode : String) (st : WState) (d : DayData)
    (h : keyOf (mkRow p mode d) ∉ st.2) :
    ewStep p mode st d = (st.1 ++ [mkRow p mode d], keyOf (mkRow p mode d) :: st.2) := by
  simp [ewStep, h]

theorem ewStep_led_mono (p : Payload) (mode : String) (st : WState) (d : DayData)
    {k : String × String} (h : k ∈ st.2) : k ∈ (ewStep p mode st d).2 := by
  by_cases hm : keyOf (mkRow p mode d) ∈ st.2
  · rw [ewStep_mem p mode st d hm]
    exact h
  · rw [ewStep_new p mode st d hm]
    exact List.mem_cons_of_mem _ h

theorem ewFold_led_mono (p : Payload) (mode : String) (days : List DayData) :
    ∀ st : WState, ∀ k ∈ st.2, k ∈ (ewFold p mode days st).2 := by
  induction days with
  | nil => intro st k h; exact h
  | cons d ds ih =>
    intro st k h
    rw [ewFold_cons]
    exact ih _ k (ewStep_led_mono p mode st d h)

theorem ewFold_day_key (p : Payload) (mode : String) (days : List DayData) :
    ∀ st : WState, ∀ d ∈ days, (d.date, upperStr mode) ∈ (ewFold p mode days st).2 := by
  induction days with
  | nil => intro st d h; exact absurd h (List.not_mem_nil d)
  | cons a ds ih =>
    intro st d h
    rw [ewFold_cons]
    rcases List.mem_cons.mp h with rfl | hds
    · refine ewFold_led_mono p mode ds _ _ ?_
      by_cases hm : keyOf (mkRow p mode d) ∈ st.2
      · rw [ewStep_mem p mode st d hm]
        exact hm
      · rw [ewStep_new p mode st d hm]
        exact List.mem_cons_self _ _
    · exact ih _ d hds

theorem ewFold_noop (p : Payload) (mode : String) (days : List DayData) :
    ∀ st : WState, (∀ d ∈ days, (d.date, upperStr mode) ∈ st.2) →
    ewFold p mode days st = st := by
  induction days with
  | nil => intro st _; rfl
  | cons a ds ih =>
    intro st h
    rw [ewFold_cons, ewStep_mem p mode st a (h a (List.mem_cons_self a ds))]
    exact ih st (fun d hd => h d (List.mem_cons_of_mem a hd))

theorem ewFold_new_rows (p : Payload) (mode : String) (days : List DayData) :
    ∀ st : WState, ∃ ex,
      (ewFold p mode days st).1 = st.1 ++ ex ∧
      (∀ r ∈ ex, keyOf r ∉ st.2) ∧
      (∀ r ∈ ex, ∃ l₁ d l₂, days = l₁ ++ d :: l₂ ∧ r = mkRow p mode d ∧
        ∀ d' ∈ l₁, d'.date ≠ d.date) ∧
      List.Pairwise (fun r s => r.Date ≠ s.Date) ex := by
  induction days with
  | nil =>
    intro st
    exact ⟨[], by simp [ewFold_nil], by simp, by simp, List.Pairwise.nil⟩
  | cons a ds ih =>
    intro st
    by_cases hm : keyOf (mkRow p mode a) ∈ st.2
    · obtain ⟨ex, h1, h2, h3, h4⟩ := ih st
      rw [ewFold_cons, ewStep_mem p mode st a hm] at *
      refine ⟨ex, h1, h2, ?_, h4⟩
      intro r hr
      obtain ⟨l₁, d, l₂, hds, hrd, hfirst⟩ := h3 r hr
      refine ⟨a :: l₁, d, l₂, by rw [hds]; rfl, hrd, ?_⟩
      intro d' hd'
      rcases List.mem_cons.mp hd' with rfl | hmem
      · intro hdate
        apply h2 r hr
        rw [hrd, keyOf_mkRow, ← hdate]
        exact hm
      · exact hfirst d' hmem
    · obtain ⟨ex', h1', h2', h3', h4'⟩ := ih (st.1 ++ [mkRow p mode a], keyOf (mkRow p mode a) :: st.2)
      rw [ewFold_cons, ewStep_new p mode st a hm]
      refine ⟨mkRow p mode a :: ex', ?_, ?_, ?_, ?_⟩
      · rw [h1']
        simp
      · intro r hr
        rcases List.mem_cons.mp hr with rfl | hmem
        · exact hm
        · intro hin
          exact h2' r hmem (List.mem_cons_of_mem _ hin)
      · intro r hr
        rcases List.mem_cons.mp hr with rfl | hmem
        · exact ⟨[], a, ds, rfl, rfl, by simp⟩
        · obtain ⟨l₁, d, l₂, hds, hrd, hfirst⟩ := h3' r hmem
          refine ⟨a :: l₁, d, l₂, by rw [hds]; rfl, hrd, ?_⟩
          intro d' hd'
          rcases List.mem_cons.mp hd' with rfl | hl₁
          · intro hdate
            apply h2' r hmem
            rw [hrd]
            simp only [keyOf_mkRow]
            rw [← hdate]
            exact List.mem_cons_self _ _
          · exact hfirst d' hl₁
      · refine List.Pairwise.cons ?_ h4'
        intro s hs
        obtain ⟨l₁, d, l₂, hds, hsd, hfirst⟩ := h3' s hs
        have hkey : keyOf s ∉ keyOf (mkRow p mode a) :: st.2 := h2' s hs
        intro hdate
        apply hkey
        rw [hsd]
        simp only [keyOf_mkRow]
        have hda : d.date = a.date := by
          rw [hsd] at hdate
          simpa [mkRow] using hdate.symm
        rw [hda]
        exact List.mem_cons_self _ _

theorem ewFold_covered (p : Payload) (mode : String) (days : List DayData) :
    ∀ st : WState, (∀ r ∈ st.1, keyOf r ∈ st.2) →
    ∀ r ∈ (ewFold p mode days st).1, keyOf r ∈ (ewFold p mode days st).2 := by
  induction days with
  | nil => intro st h; exact h
  | cons a ds ih =>
    intro st h
    rw [ewFold_cons]
    by_cases hm : keyOf (mkRow p mode a) ∈ st.2
    · rw [ewStep_mem p mode st a hm]
      exact ih st h
    · rw [ewStep_new p mode st a hm]
      refine ih _ ?_
      intro r hr
      rcases List.mem_append.mp hr with hr1 | hr2
      · exact List.mem_cons_of_mem _ (h r hr1)
      · rw [List.mem_singleton.mp hr2]
        exact List.mem_cons_self _ _

theorem ewFold_distinct (p : Payload) (mode : String) (days : List DayData) :
    ∀ st : WState, (∀ r ∈ st.1, keyOf r ∈ st.2) → keysDistinct st.1 →
    keysDistinct (ewFold p mode days st).1 := by
  induction days with
  | nil => intro st _ h; exact h
  | cons a ds ih =>
    intro st hcov hdis
    rw [ewFold_cons]
    by_cases hm : keyOf (mkRow p mode a) ∈ st.2
    · rw [ewStep_mem p mode st a hm]
      exact ih st hcov hdis
    · rw [ewStep_new p mode st a hm]
      refine ih _ ?_ ?_
      · intro r hr
        rcases List.mem_append.mp hr with hr1 | hr2
        · exact List.mem_cons_of_mem _ (hcov r hr1)
        · rw [List.mem_singleton.mp hr2]
          exact List.mem_cons_self _ _
      · unfold keysDistinct at *
        rw [List.pairwise_append]
        refine ⟨hdis, List.pairwise_singleton _ _, ?_⟩
        intro r hr s hs
        rw [List.mem_singleton.mp hs]
        intro hk
        apply hm
        rw [← hk]
        exact hcov r hr

theorem ewFold_led_sub (p : Payload) (mode : String) (days : List DayData) :
    ∀ st : WState, (∀ k ∈ st.2, k ∈ st.1.map keyOf) →
    ∀ k ∈ (ewFold p mode days st).2, k ∈ (ewFold p mode days st).1.map keyOf := by
  induction days with
  | nil => intro st h; exact h
  | cons a ds ih =>
    intro st h
    rw [ewFold_cons]
    by_cases hm : keyOf (mkRow p mode a) ∈ st.2
    · rw [ewStep_mem p mode st a hm]
      exact ih st h
    · rw [ewStep_new p mode st a hm]
      refine ih _ ?_
      intro k hk
      rcases List.mem_cons.mp hk with rfl | hmem
      · simp
      · rcases List.mem_map.mp (h k hmem) with ⟨r, hr, hkr⟩
        exact List.mem_map.mpr ⟨r, List.mem_append_left _ hr, hkr⟩

theorem hydrate_mem (rows : List Row) (k : String × String) :
    k ∈ hydrate rows ↔ (k.1 ≠ "" ∧ k.2 ≠ "") ∧ ∃ r ∈ rows, keyOf r = k := by
  unfold hydrate
  rw [List.mem_filterMap]
  constructor
  · rintro ⟨r, hr, hfr⟩
    by_cases hc : r.Date ≠ "" ∧ r.Typ ≠ ""
    · rw [if_pos hc] at hfr
      obtain rfl := (Option.some_inj.mp hfr)
      exact ⟨hc, r, hr, rfl⟩
    · rw [if_neg hc] at hfr
      exact absurd hfr (Option.noConfusion)
  · rintro ⟨hne, r, hr, hkr⟩
    refine ⟨r, hr, ?_⟩
    rw [if_pos ?_]
    · rw [← hkr]
      rfl
    · rw [← hkr] at hne
      exact hne

theorem hydrate_sub_keys (rows : List Row) (k : String × String)
    (h : k ∈ hydrate rows) : k ∈ rows.map keyOf := by
  obtain ⟨_, r, hr, hkr⟩ := (hydrate_mem rows k).mp h
  exact List.mem_map.mpr ⟨r, hr, hkr⟩

/-- The fold result of one `extract_and_write` call. -/
def ewRes (σ : EtlState) (p : Payload) (mode : String) : WState :=
  ewFold p mode p.forecastday (ewFile0 σ p, ewLed0 σ p)

theorem eaw_eq (σ : EtlState) (p : Payload) (mode : String) :
    extract_and_write σ p mode =
      ⟨setA (cityOf p) (ewRes σ p mode).1 σ.files, setA (cityOf p) (ewRes σ p mode).2 σ.recs⟩ := rfl

theorem eaw_files_self (σ : EtlState) (p : Payload) (mode : String) :
    lookupA (extract_and_write σ p mode).files (cityOf p) = some (ewRes σ p mode).1 := by
  rw [eaw_eq]
  exact lookupA_setA_self _ _ _

theorem eaw_files_other (σ : EtlState) (p : Payload) (mode : String) {c : String}
    (h : c ≠ cityOf p) :
    lookupA (extract_and_write σ p mode).files c = lookupA σ.files c := by
  rw [eaw_eq]
  exact lookupA_setA_other h _ _

theorem eaw_recs_self (σ : EtlState) (p : Payload) (mode : String) :
    lookupA (extract_and_write σ p mode).recs (cityOf p) = some (ewRes σ p mode).2 := by
  rw [eaw_eq]
  exact lookupA_setA_self _ _ _

theorem eaw_recs_other (σ : EtlState) (p : Payload) (mode : String) {c : String}
    (h : c ≠ cityOf p) :
    lookupA (extract_and_write σ p mode).recs c = lookupA σ.recs c := by
  rw [eaw_eq]
  exact lookupA_setA_other h _ _

theorem fileOf_eaw_self (σ : EtlState) (p : Payload) (mode : String) :
    fileOf (extract_and_write σ p mode) (cityOf p) = (ewRes σ p mode).1 := by
  unfold fileOf
  rw [eaw_files_self]
  rfl

theorem fileOf_eaw_other (σ : EtlState) (p : Payload) (mode : String) {c : String}
    (h : c ≠ cityOf p) : fileOf (extract_and_write σ p mode) c = fileOf σ c := by
  unfold fileOf
  rw [eaw_files_other σ p mode h]

theorem eaw_grows (σ : EtlState) (p : Payload) (mode : String) (c : String) :
    ∃ ex, fileOf (extract_and_write σ p mode) c = fileOf σ c ++ ex := by
  by_cases hc : c = cityOf p
  · subst hc
    rw [fileOf_eaw_self]
    obtain ⟨ex, h1, _, _, _⟩ := ewFold_new_rows p mode p.forecastday (ewFile0 σ p, ewLed0 σ p)
    exact ⟨ex, h1⟩
  · exact ⟨[], by rw [fileOf_eaw_other σ p mode hc, List.append_nil]⟩

theorem eaw_entry_mono (σ : EtlState) (p : Payload) (mode : String) {c : String}
    {rows : List Row} (h : lookupA σ.files c = some rows) :
    ∃ ex, lookupA (extract_and_write σ p mode).files c = some (rows ++ ex) := by
  by_cases hc : c = cityOf p
  · subst hc
    rw [eaw_files_self]
    obtain ⟨ex, h1, _, _, _⟩ := ewFold_new_rows p mode p.forecastday (ewFile0 σ p, ewLed0 σ p)
    refine ⟨ex, ?_⟩
    unfold ewRes at *
    rw [h1]
    have : ewFile0 σ p = rows := by
      unfold ewFile0
      rw [h]
      rfl
    rw [this]
  · exact ⟨[], by rw [eaw_files_other σ p mode hc, List.append_nil, h]⟩

theorem runUnits_nil (σ : EtlState) : runUnits [] σ = σ := rfl

theorem runUnits_cons (u : Payload × String) (us : List (Payload × String)) (σ : EtlState) :
    runUnits (u :: us) σ = runUnits us (processUnit σ u) := rfl

theorem runUnits_append (us vs : List (Payload × String)) (σ : EtlState) :
    runUnits (us ++ vs) σ = runUnits vs (runUnits us σ) := by
  unfold runUnits
  rw [List.foldl_append]

theorem runUnits_entry_mono (us : List (Payload × String)) :
    ∀ (σ : EtlState) {c : String} {rows : List Row}, lookupA σ.files c = some rows →
    ∃ ex, lookupA (runUnits us σ).files c = some (rows ++ ex) := by
  induction us with
  | nil => intro σ c rows h; exact ⟨[], by rw [runUnits_nil, List.append_nil, h]⟩
  | cons u ut ih =>
    intro σ c rows h
    rw [runUnits_cons]
    obtain ⟨ex1, h1⟩ := eaw_entry_mono σ u.1 u.2 h
    obtain ⟨ex2, h2⟩ := ih (processUnit σ u) h1
    exact ⟨ex1 ++ ex2, by rw [h2, List.append_assoc]⟩

theorem foldl_processCity_units (net : String → Nat → FetchOutcome) (mode : String)
    (cities : List String) : ∀ σ : EtlState,
    cities.foldl (processCity net mode) σ =
      runUnits (cities.filterMap (fun c => (fetchPayload (net c)).map (fun p => (p, mode)))) σ := by
  induction cities with
  | nil => intro σ; rfl
  | cons c cs ih =>
    intro σ
    cases h : (fetch_data (net c)).1 with
    | returned a =>
      cases a with
      | some p =>
        simp only [List.foldl_cons, List.filterMap_cons, processCity, fetchPayload, h,
          Option.map_some', runUnits_cons, processUnit, ih]
      | none =>
        simp only [List.foldl_cons, List.filterMap_cons, processCity, fetchPayload, h,
          Option.map_none', ih]
    | exhausted =>
      simp only [List.foldl_cons, List.filterMap_cons, processCity, fetchPayload, h,
        Option.map_none', ih]
    | raised =>
      simp only [List.foldl_cons, List.filterMap_cons, processCity, fetchPayload, h,
        Option.map_none', ih]

theorem run_forecast_etl_units (net : String → Nat → FetchOutcome) (cities : List String)
    (σ : EtlState) : run_forecast_etl net cities σ = runUnits (forecastUnits net cities) σ :=
  foldl_processCity_units net "forecast" cities σ

theorem run_history_etl_units (netH : String → String → Nat → FetchOutcome)
    (dates cities : List String) : ∀ σ : EtlState,
    run_history_etl netH dates cities σ = runUnits (historyUnits netH dates cities) σ := by
  induction dates with
  | nil => intro σ; rfl
  | cons ds dt ih =>
    intro σ
    unfold run_history_etl at *
    rw [List.foldl_cons]
    unfold historyUnits at *
    rw [List.flatMap_cons, runUnits_append]
    rw [ih, foldl_processCity_units]

theorem runPipeline_units (netF : String → Nat → FetchOutcome)
    (netH : String → String → Nat → FetchOutcome) (dates cities : List String)
    (σ : EtlState) :
    runPipeline netF netH dates cities σ =
      runUnits (pipelineUnits netF netH dates cities) σ := by
  unfold runPipeline pipelineUnits
  rw [runUnits_append, run_forecast_etl_units, run_history_etl_units]

theorem retryLoop_ret {α : Type} (f : Nat → AttemptResult α) (b : Bool)
    (fuel attempt delay : Nat) (a : α) (h : f attempt = .ret a) :
    retryLoop f b (fuel + 1) attempt delay = (.returned a, []) := by
  simp [retryLoop, h]

theorem parseOutcome_of_not_ok {o : FetchOutcome} (h : isOk o = false) :
    parseOutcome o = none := by
  cases o with
  | ok p => simp [isOk] at h
  | netErr e => rfl
  | otherErr => rfl

/-- Claim C7: for every payload in which the air-quality value
`current.air_quality.co` is absent, every row built from that payload has
its `Air_Quality` field equal to the sentinel string `"N/A"`. -/
theorem C7_missing_air_quality_sentinel (p : Payload) (mode : String) (d : DayData)
    (h : coChain p = none) : (mkRow p mode d).Air_Quality = "N/A" := by
  show getAirQuality p = "N/A"
  unfold getAirQuality
  cases hc : p.current with
  | none => rfl
  | some cur =>
    cases ha : cur.air_quality with
    | none => simp [ha]
    | some aq =>
      cases ho : aq.co with
      | none => simp [ha, ho]
      | some v =>
        exfalso
        simp [coChain, hc, ha, ho] at h

def pC7 : Payload :=
  { location := { name := "A", country := "X" }
    current := some { air_quality := some { co := none } }
    forecastday := [] }

def dC7 : DayData :=
  { date := "2026-01-01", day := { mintemp_c := "1", maxtemp_c := "2", avghumidity := "3" } }

theorem C7_witness :
    coChain pC7 = none ∧ (mkRow pC7 "forecast" dC7).Air_Quality = "N/A" :=
  ⟨rfl, C7_missing_air_quality_sentinel pC7 "forecast" dC7 rfl⟩

/-- Claim C9: hydration never records a key with a missing/empty `Date` or
`Type` component, and a key with both components non-empty is in the
hydrated ledger exactly when some row of the file carries it — so an
empty-keyed row can never cause a later record with a real key to be
skipped as a duplicate. -/
theorem C9_hydrate_excludes_empty (rows : List Row) (k : String × String) :
    (k.1 = "" ∨ k.2 = "" → k ∉ hydrate rows) ∧
    (k.1 ≠ "" → k.2 ≠ "" → (k ∈ hydrate rows ↔ ∃ r ∈ rows, keyOf r = k)) := by
  constructor
  · intro hke hmem
    obtain ⟨⟨h1, h2⟩, _⟩ := (hydrate_mem rows k).mp hmem
    rcases hke with h | h
    · exact h1 h
    · exact h2 h
  · intro h1 h2
    rw [hydrate_mem]
    constructor
    · rintro ⟨_, hr⟩
      exact hr
    · intro hr
      exact ⟨⟨h1, h2⟩, hr⟩

def rC9 : Row :=
  { Date := "", Location := "A", Country := "X", Min_Temp := "1"
    Max_Temp := "2", Humidity := "3", Air_Quality := "N/A", Typ := "FORECAST" }

def rC9real : Row :=
  { Date := "2026-01-01", Location := "A", Country := "X", Min_Temp := "1"
    Max_Temp := "2", Humidity := "3", Air_Quality := "N/A", Typ := "FORECAST" }

theorem C9_witness :
    ("", "FORECAST") ∉ hydrate [rC9, rC9real] ∧
    (("2026-01-01", "FORECAST") ∈ hydrate [rC9, rC9real] ↔
      ∃ r ∈ [rC9, rC9real], keyOf r = ("2026-01-01", "FORECAST")) :=
  ⟨(C9_hydrate_excludes_empty [rC9, rC9real] ("", "FORECAST")).1 (Or.inl rfl),
   (C9_hydrate_excludes_empty [rC9, rC9real] ("2026-01-01", "FORECAST")).2
     (by decide) (by decide)⟩

theorem retryLoop_all_fail {α : Type} (f : Nat → AttemptResult α)
    (hfail : ∀ i, isAllowedFail (f i) = true) :
    ∀ (fuel attempt delay : Nat),
    retryLoop f true fuel attempt delay =
      (.exhausted, (List.range fuel).map (fun k => delay * 2 ^ k)) := by
  intro fuel
  induction fuel with
  | zero =>
    intro attempt delay
    simp [retryLoop]
  | succ m ih =>
    intro attempt delay
    have hf := hfail attempt
    cases hfa : f attempt with
    | ret a =>
      rw [hfa] at hf
      simp [isAllowedFail] at hf
    | raiseOther =>
      rw [hfa] at hf
      simp [isAllowedFail] at hf
    | raiseAllowed e =>
      simp only [retryLoop, hfa, if_true]
      rw [ih (attempt + 1) (delay * 2)]
      refine Prod.ext rfl ?_
      show delay :: (List.range m).map (fun k => delay * 2 * 2 ^ k) =
        (List.range (m + 1)).map (fun k => delay * 2 ^ k)
      rw [List.range_succ_eq_map, List.map_cons, List.map_map]
      refine congrArg₂ _ (by simp) ?_
      refine List.map_congr_left ?_
      intro k _
      show delay * 2 * 2 ^ k = delay * 2 ^ (k + 1)
      rw [pow_succ]
      ring

def fC8 : Nat → AttemptResult Unit := fun _ => .raiseAllowed .connectTimeout

/-- Claim C8 counterexample: with 3 attempts, initial delay 5 and backoff
on, a wrapped call whose attempts all keep failing with allow-listed
errors performs 3 sleeps, not 3 - 1 = 2: the loop also sleeps after the
final failed attempt. -/
theorem C8_counterexample :
    (retry 3 5 true fC8).2.length = 3 ∧ ¬ ((retry 3 5 true fC8).2.length = 3 - 1) := by
  decide

/-- Claim C8 (amended): when every attempt keeps failing with allow-listed
errors, a run that exhausts all N attempts performs N sleeps — one after
each failed attempt, including the last — and with backoff enabled the
k-th sleep (counting from 1) lasts `initial_delay * 2 ^ (k - 1)`; the
wrapper then returns the no-data outcome. -/
theorem C8_sleep_schedule {α : Type} (n d : Nat) (f : Nat → AttemptResult α)
    (hfail : ∀ i, isAllowedFail (f i) = true) :
    (retry n d true f).1 = .exhausted ∧
    (retry n d true f).2 = (List.range n).map (fun k => d * 2 ^ k) := by
  unfold retry
  rw [retryLoop_all_fail f hfail n 1 d]
  exact ⟨rfl, rfl⟩

theorem C8_witness :
    (retry 2 7 true fC8).1 = RetryOutcome.exhausted ∧ (retry 2 7 true fC8).2 = [7, 14] := by
  have h := C8_sleep_schedule 2 7 fC8 (fun i => rfl)
  refine ⟨h.1, ?_⟩
  rw [h.2]
  decide

def pC1 : Payload :=
  { location := { name := "A", country := "X" }
    current := none
    forecastday := [{ date := "2026-01-01"
                      day := { mintemp_c := "1", maxtemp_c := "2", avghumidity := "3" } }] }

def gC1flaky : Nat → FetchOutcome :=
  fun i => if i ≤ 2 then .netErr .connectTimeout else .ok pC1

def gC1ok : Nat → FetchOutcome := fun _ => .ok pC1

def netC1 : String → Nat → FetchOutcome := fun _ => gC1flaky

/-- Claim C1, evaluated on the code: for a URL whose attempts 1 and 2
raise a transient network error and whose attempt 3 would succeed,
`fetch_data` returns `None` after the very first attempt (the body's
blanket `except Exception` swallows the error, so the retry wrapper never
retries), the result differs from an immediately-successful fetch, and
the orchestrator runs the extraction step zero times, leaving the state
unchanged — contradicting the claimed retry behaviour. -/
theorem C1_retry_dead_code :
    (fetch_data gC1flaky).1 = RetryOutcome.returned none ∧
    (fetch_data gC1ok).1 = RetryOutcome.returned (some pC1) ∧
    (fetch_data gC1flaky).1 ≠ (fetch_data gC1ok).1 ∧
    processCity netC1 "forecast" ⟨[], []⟩ "A" = ⟨[], []⟩ := by
  decide

/-- Claim C2: if every one of the 3 fetch attempts for a city fails, then
`fetch_data` returns `None` (it does not raise: the wrapper's outcome is a
returned value, not a propagated exception), processing that city leaves
the state unchanged — zero rows written — and the orchestration loop
proceeds to the remaining cities exactly as if the failed city were not
in the list. -/
theorem C2_exhausted_fetch_skips_city (net : String → Nat → FetchOutcome) (c : String)
    (h1 : isOk (net c 1) = false) (h2 : isOk (net c 2) = false) (h3 : isOk (net c 3) = false)
    (pre post : List String) (σ : EtlState) :
    (fetch_data (net c)).1 = RetryOutcome.returned none ∧
    (∀ τ : EtlState, processCity net "forecast" τ c = τ) ∧
    run_forecast_etl net (pre ++ c :: post) σ =
      run_forecast_etl net post (run_forecast_etl net pre σ) := by
  have hstep : fetchAttempt (net c) 1 = .ret none := by
    unfold fetchAttempt
    rw [parseOutcome_of_not_ok h1]
  have hfd : (fetch_data (net c)).1 = RetryOutcome.returned none := by
    unfold fetch_data retry
    rw [retryLoop_ret (fetchAttempt (net c)) true 2 1 2 none hstep]
  have hskip : ∀ τ : EtlState, processCity net "forecast" τ c = τ := by
    intro τ
    unfold processCity
    rw [hfd]
  refine ⟨hfd, hskip, ?_⟩
  unfold run_forecast_etl
  rw [List.foldl_append, List.foldl_cons, hskip]

def netC2 : String → Nat → FetchOutcome := fun _ _ => .netErr .readTimeout

theorem C2_witness :
    (fetch_data (netC2 "A")).1 = RetryOutcome.returned none ∧
    (∀ τ : EtlState, processCity netC2 "forecast" τ "A" = τ) ∧
    run_forecast_etl netC2 (["B"] ++ "A" :: ["C"]) ⟨[], []⟩ =
      run_forecast_etl netC2 ["C"] (run_forecast_etl netC2 ["B"] ⟨[], []⟩) :=
  C2_exhausted_fetch_skips_city netC2 "A" rfl rfl rfl ["B"] ["C"] ⟨[], []⟩

def diC5 : DayInfo := { mintemp_c := "1", maxtemp_c := "2", avghumidity := "3" }

def pC5dup : Payload :=
  { location := { name := "A", country := "X" }
    current := none
    forecastday := [{ date := "2026-01-01", day := diC5 },
                    { date := "2026-01-01", day := diC5 },
                    { date := "2026-01-02", day := diC5 }] }

/-- Claim C5 counterexample: a payload whose forecast-day list has exactly
3 entries, two of which share a date, appends only 2 rows on first run for
a city with no prior file and no ledger entry — not 3. -/
theorem C5_counterexample :
    pC5dup.forecastday.length = 3 ∧
    lookupA (⟨[], []⟩ : EtlState).files (cityOf pC5dup) = none ∧
    lookupA (⟨[], []⟩ : EtlState).recs (cityOf pC5dup) = none ∧
    (fileOf (extract_and_write ⟨[], []⟩ pC5dup "forecast") (cityOf pC5dup)).length = 2 ∧
    ¬ ((fileOf (extract_and_write ⟨[], []⟩ pC5dup "forecast") (cityOf pC5dup)).length = 3) := by
  decide

/-- Claim C5 (amended): for every payload whose forecast-day list has
exactly 3 entries with pairwise distinct dates, running
`extract_and_write` for a city with no prior file and no ledger entry
appends exactly the 3 built rows to the newly created file. -/
theorem C5_three_rows_on_first_run (σ : EtlState) (p : Payload) (mode : String)
    (a b c : DayData) (hdays : p.forecastday = [a, b, c])
    (hfile : lookupA σ.files (cityOf p) = none)
    (hrecs : lookupA σ.recs (cityOf p) = none)
    (hab : a.date ≠ b.date) (hac : a.date ≠ c.date) (hbc : b.date ≠ c.date) :
    fileOf (extract_and_write σ p mode) (cityOf p) =
      [mkRow p mode a, mkRow p mode b, mkRow p mode c] := by
  rw [fileOf_eaw_self]
  unfold ewRes
  have hfile0 : ewFile0 σ p = [] := by
    unfold ewFile0
    rw [hfile]
    rfl
  have hled0 : ewLed0 σ p = [] := by
    unfold ewLed0
    rw [hrecs, hfile0]
    rfl
  rw [hdays, hfile0, hled0]
  rw [ewFold_cons, ewFold_cons, ewFold_cons, ewFold_nil]
  rw [ewStep_new p mode ([], []) a (by simp)]
  rw [ewStep_new p mode _ b ?hb]
  case hb =>
    simp only [keyOf_mkRow]
    simp [Prod.ext_iff, Ne.symm hab]
  rw [ewStep_new p mode _ c ?hc]
  case hc =>
    simp only [keyOf_mkRow]
    simp [Prod.ext_iff, Ne.symm hac, Ne.symm hbc]
  simp

def dC5a : DayData := { date := "2026-01-01", day := diC5 }

def dC5b : DayData := { date := "2026-01-02", day := diC5 }

def dC5c : DayData := { date := "2026-01-03", day := diC5 }

def pC5w : Payload :=
  { location := { name := "A", country := "X" }
    current := none
    forecastday := [dC5a, dC5b, dC5c] }

theorem C5_witness :
    fileOf (extract_and_write ⟨[], []⟩ pC5w "forecast") (cityOf pC5w) =
      [mkRow pC5w "forecast" dC5a, mkRow pC5w "forecast" dC5b, mkRow pC5w "forecast" dC5c] :=
  C5_three_rows_on_first_run ⟨[], []⟩ pC5w "forecast" dC5a dC5b dC5c rfl rfl rfl
    (by decide) (by decide) (by decide)

/-- Claim C6: an `extract_and_write` call only ever extends files by
appending — every city file after the call is the file before the call
followed by some (possibly empty) list of appended rows, never modified
or truncated — and a forecast day whose `(Date, Type)` key is already in
the current ledger state causes no write at all: the processing step
leaves file and ledger exactly unchanged for that record. -/
theorem C6_append_only_and_skip (σ : EtlState) (p : Payload) (mode : String) :
    (∀ c, ∃ ex, fileOf (extract_and_write σ p mode) c = fileOf σ c ++ ex) ∧
    (∀ (st : WState) (d : DayData), keyOf (mkRow p mode d) ∈ st.2 →
      ewStep p mode st d = st) :=
  ⟨fun c => eaw_grows σ p mode c, fun st d h => ewStep_mem p mode st d h⟩

def rC6 : Row :=
  { Date := "2026-01-01", Location := "A", Country := "X", Min_Temp := "1"
    Max_Temp := "2", Humidity := "3", Air_Quality := "N/A", Typ := "FORECAST" }

def dC6 : DayData :=
  { date := "2026-01-01", day := { mintemp_c := "1", maxtemp_c := "2", avghumidity := "3" } }

def pC6 : Payload :=
  { location := { name := "A", country := "X" }
    current := none
    forecastday := [dC6] }

def σC6 : EtlState := ⟨[("A", [rC6])], [("A", [("2026-01-01", "FORECAST")])]⟩

theorem C6_witness :
    (∃ ex, fileOf (extract_and_write σC6 pC6 "forecast") "A" = fileOf σC6 "A" ++ ex) ∧
    ewStep pC6 "forecast" ([rC6], [("2026-01-01", "FORECAST")]) dC6 =
      ([rC6], [("2026-01-01", "FORECAST")]) :=
  ⟨(C6_append_only_and_skip σC6 pC6 "forecast").1 "A",
   (C6_append_only_and_skip σC6 pC6 "forecast").2 ([rC6], [("2026-01-01", "FORECAST")])
     dC6 (by decide)⟩

/-- Claim C10: within a single `extract_and_write` call the ledger is
extended as soon as a row is appended, so the rows a call appends have
pairwise distinct dates, none of their keys was in the ledger at the start
of the loop, and each appended row is the one built from the FIRST entry
of the forecast-day list carrying its date — a later entry with the same
date is skipped as a duplicate. -/
theorem C10_in_call_dedup (p : Payload) (mode : String) (st : WState) :
    ∃ ex, (ewFold p mode p.forecastday st).1 = st.1 ++ ex ∧
      List.Pairwise (fun r s => r.Date ≠ s.Date) ex ∧
      (∀ r ∈ ex, keyOf r ∉ st.2) ∧
      ∀ r ∈ ex, ∃ l₁ d l₂, p.forecastday = l₁ ++ d :: l₂ ∧ r = mkRow p mode d ∧
        ∀ d' ∈ l₁, d'.date ≠ d.date := by
  obtain ⟨ex, h1, h2, h3, h4⟩ := ewFold_new_rows p mode p.forecastday st
  exact ⟨ex, h1, h4, h2, h3⟩

def diC10 : DayInfo := { mintemp_c := "4", maxtemp_c := "5", avghumidity := "6" }

def pC10 : Payload :=
  { location := { name := "B", country := "Y" }
    current := none
    forecastday := [{ date := "2026-02-01", day := diC10 },
                    { date := "2026-02-01", day := diC10 }] }

theorem C10_witness :
    ∃ ex, (ewFold pC10 "forecast" pC10.forecastday ([], [])).1 = [] ++ ex ∧
      List.Pairwise (fun r s => r.Date ≠ s.Date) ex ∧
      (∀ r ∈ ex, keyOf r ∉ ([] : List (String × String))) ∧
      ∀ r ∈ ex, ∃ l₁ d l₂, pC10.forecastday = l₁ ++ d :: l₂ ∧
        r = mkRow pC10 "forecast" d ∧ ∀ d' ∈ l₁, d'.date ≠ d.date :=
  C10_in_call_dedup pC10 "forecast" ([], [])

/-- Run invariant for deduplication: every city file has pairwise distinct
keys; a city with a ledger entry has every file row's key recorded in it;
a city not yet touched (no ledger entry) has only rows whose key fields
are both non-empty. -/
def DedupInv (σ : EtlState) : Prop :=
  ∀ c, keysDistinct (fileOf σ c) ∧
    (∀ L, lookupA σ.recs c = some L → ∀ r ∈ fileOf σ c, keyOf r ∈ L) ∧
    (lookupA σ.recs c = none → ∀ r ∈ fileOf σ c, r.Date ≠ "" ∧ r.Typ ≠ "")

theorem ewLed0_covers (σ : EtlState) (p : Payload) (hinv : DedupInv σ) :
    ∀ r ∈ ewFile0 σ p, keyOf r ∈ ewLed0 σ p := by
  intro r hr
  unfold ewLed0
  cases hL : lookupA σ.recs (cityOf p) with
  | some L => exact (hinv (cityOf p)).2.1 L hL r hr
  | none =>
    have hne := (hinv (cityOf p)).2.2 hL r hr
    exact (hydrate_mem _ _).mpr ⟨hne, r, hr, rfl⟩

theorem DedupInv_eaw (σ : EtlState) (p : Payload) (mode : String)
    (hinv : DedupInv σ) : DedupInv (extract_and_write σ p mode) := by
  intro c
  by_cases hc : c = cityOf p
  · subst hc
    have hcov := ewLed0_covers σ p hinv
    have hdis : keysDistinct (ewFile0 σ p) := (hinv (cityOf p)).1
    refine ⟨?_, ?_, ?_⟩
    · rw [fileOf_eaw_self]
      exact ewFold_distinct p mode p.forecastday (ewFile0 σ p, ewLed0 σ p) hcov hdis
    · intro L hL
      rw [eaw_recs_self] at hL
      obtain rfl := Option.some_inj.mp hL
      rw [fileOf_eaw_self]
      exact ewFold_covered p mode p.forecastday (ewFile0 σ p, ewLed0 σ p) hcov
    · intro hnone
      rw [eaw_recs_self] at hnone
      exact absurd hnone (Option.noConfusion)
  · have hf := fileOf_eaw_other σ p mode hc
    have hr := eaw_recs_other σ p mode hc
    refine ⟨?_, ?_, ?_⟩
    · rw [hf]
      exact (hinv c).1
    · intro L hL
      rw [hr] at hL
      rw [hf]
      exact (hinv c).2.1 L hL
    · intro hnone
      rw [hr] at hnone
      rw [hf]
      exact (hinv c).2.2 hnone

theorem DedupInv_runUnits (units : List (Payload × String)) :
    ∀ σ : EtlState, DedupInv σ → DedupInv (runUnits units σ) := by
  induction units with
  | nil => intro σ h; exact h
  | cons u ut ih =>
    intro σ h
    rw [runUnits_cons]
    exact ih _ (DedupInv_eaw σ u.1 u.2 h)

def rC3 : Row :=
  { Date := "", Location := "A", Country := "X", Min_Temp := "1"
    Max_Temp := "2", Humidity := "3", Air_Quality := "N/A", Typ := "FORECAST" }

def pC3 : Payload :=
  { location := { name := "A", country := "X" }
    current := none
    forecastday := [{ date := "", day := { mintemp_c := "1", maxtemp_c := "2", avghumidity := "3" } }] }

def σC3 : EtlState := ⟨[("A", [rC3])], []⟩

/-- Claim C3 counterexample: a city file whose single existing row has an
empty `Date` (so its rows trivially all have distinct `(Date, Type)`
pairs) is driven to a duplicate `(Date, Type)` pair by one
`extract_and_write` call with a payload carrying the same empty date:
hydration drops the empty-keyed row from the ledger, so the call appends
a second row with the same key. -/
theorem C3_counterexample :
    keysDistinct (fileOf σC3 "A") ∧
    ¬ keysDistinct (fileOf (extract_and_write σC3 pC3 "forecast") "A") := by
  decide

/-- Claim C3 (amended): for every city file and every sequence of
`extract_and_write` calls starting from a fresh run (no in-memory ledgers)
whose existing files' rows all have distinct `(Date, Type)` pairs AND
non-empty `Date` and `Type` fields, after each call no two rows of any
city file share the same `(Date, Type)` pair. -/
theorem C3_no_duplicate_keys (σ : EtlState) (calls : List (Payload × String))
    (hrecs : σ.recs = [])
    (hfiles : ∀ c, keysDistinct (fileOf σ c) ∧
      ∀ r ∈ fileOf σ c, r.Date ≠ "" ∧ r.Typ ≠ "") :
    ∀ c, keysDistinct (fileOf (runUnits calls σ) c) := by
  have hinv : DedupInv σ := by
    intro c
    refine ⟨(hfiles c).1, ?_, fun _ => (hfiles c).2⟩
    intro L hL
    rw [hrecs] at hL
    exact absurd hL (by simp [lookupA])
  intro c
  exact (DedupInv_runUnits calls σ hinv c).1

def pC3w : Payload :=
  { location := { name := "A", country := "X" }
    current := none
    forecastday := [{ date := "2026-03-01", day := { mintemp_c := "1", maxtemp_c := "2", avghumidity := "3" } }] }

theorem C3_witness :
    keysDistinct (fileOf (runUnits [(pC3w, "forecast"), (pC3w, "forecast")] ⟨[], []⟩) "A") :=
  C3_no_duplicate_keys ⟨[], []⟩ [(pC3w, "forecast"), (pC3w, "forecast")] rfl
    (fun c => ⟨List.Pairwise.nil, fun r hr => absurd hr (List.not_mem_nil r)⟩) "A"

/-- All rows of all files have non-empty key fields. -/
def RowsOK (F : List (String × List Row)) : Prop :=
  ∀ c, ∀ r ∈ (lookupA F c).getD [], r.Date ≠ "" ∧ r.Typ ≠ ""

/-- Every stored ledger is a subset of the keys of the city's file. -/
def LedSub (σ : EtlState) : Prop :=
  ∀ c L, lookupA σ.recs c = some L → ∀ k ∈ L, k ∈ (fileOf σ c).map keyOf

/-- A unit whose forecast days all carry non-empty dates and whose mode
upper-cases to a non-empty type tag. -/
def UnitOK (u : Payload × String) : Prop :=
  (∀ d ∈ u.1.forecastday, d.date ≠ "") ∧ upperStr u.2 ≠ ""

/-- The files `F` contain the unit's city file, and that file's keys cover
every record key the unit would produce. -/
def CoveredUnit (F : List (String × List Row)) (u : Payload × String) : Prop :=
  (∃ rows, lookupA F (cityOf u.1) = some rows) ∧
  ∀ d ∈ u.1.forecastday,
    (d.date, upperStr u.2) ∈ ((lookupA F (cityOf u.1)).getD []).map keyOf

/-- Every stored ledger contains at least the hydration of the (fixed)
city file it was hydrated from. -/
def HydSub (F : List (String × List Row))
    (R : List (String × List (String × String))) : Prop :=
  ∀ c L, lookupA R c = some L → ∀ k ∈ hydrate ((lookupA F c).getD []), k ∈ L

theorem ewLed0_sub (σ : EtlState) (p : Payload) (hsub : LedSub σ) :
    ∀ k ∈ ewLed0 σ p, k ∈ (ewFile0 σ p).map keyOf := by
  unfold ewLed0
  cases hL : lookupA σ.recs (cityOf p) with
  | some L => exact fun k hk => hsub (cityOf p) L hL k hk
  | none => exact fun k hk => hydrate_sub_keys _ k hk

theorem RowsOK_eaw (σ : EtlState) (p : Payload) (mode : String)
    (hrows : RowsOK σ.files) (hdates : ∀ d ∈ p.forecastday, d.date ≠ "")
    (hmode : upperStr mode ≠ "") :
    RowsOK (extract_and_write σ p mode).files := by
  intro c r hr
  by_cases hc : c = cityOf p
  · subst hc
    rw [eaw_files_self] at hr
    have hr' : r ∈ (ewRes σ p mode).1 := hr
    obtain ⟨ex, h1, h2, h3, h4⟩ := ewFold_new_rows p mode p.forecastday (ewFile0 σ p, ewLed0 σ p)
    have h1' : (ewRes σ p mode).1 = ewFile0 σ p ++ ex := h1
    rw [h1'] at hr'
    rcases List.mem_append.mp hr' with hin | hin
    · exact hrows (cityOf p) r hin
    · obtain ⟨l₁, d, l₂, hds, hrd, _⟩ := h3 r hin
      have hd : d ∈ p.forecastday := by
        rw [hds]
        exact List.mem_append_right _ (List.mem_cons_self _ _)
      constructor
      · rw [hrd]
        exact hdates d hd
      · rw [hrd]
        exact hmode
  · rw [eaw_files_other σ p mode hc] at hr
    exact hrows c r hr

theorem LedSub_eaw (σ : EtlState) (p : Payload) (mode : String)
    (hsub : LedSub σ) : LedSub (extract_and_write σ p mode) := by
  intro c L hL k hk
  by_cases hc : c = cityOf p
  · subst hc
    rw [eaw_recs_self] at hL
    obtain rfl := Option.some_inj.mp hL
    rw [fileOf_eaw_self]
    exact ewFold_led_sub p mode p.forecastday (ewFile0 σ p, ewLed0 σ p)
      (ewLed0_sub σ p hsub) k hk
  · rw [eaw_recs_other σ p mode hc] at hL
    rw [fileOf_eaw_other σ p mode hc]
    exact hsub c L hL k hk

theorem CoveredUnit_eaw (σ : EtlState) (u : Payload × String) (hsub : LedSub σ) :
    CoveredUnit (processUnit σ u).files u := by
  unfold processUnit
  constructor
  · exact ⟨(ewRes σ u.1 u.2).1, eaw_files_self σ u.1 u.2⟩
  · intro d hd
    have h2 : (d.date, upperStr u.2) ∈ (ewRes σ u.1 u.2).2 :=
      ewFold_day_key u.1 u.2 u.1.forecastday (ewFile0 σ u.1, ewLed0 σ u.1) d hd
    have h3 := ewFold_led_sub u.1 u.2 u.1.forecastday (ewFile0 σ u.1, ewLed0 σ u.1)
      (ewLed0_sub σ u.1 hsub) _ h2
    rw [eaw_files_self]
    exact h3

theorem CoveredUnit_runUnits (us : List (Payload × String)) (σ : EtlState)
    (u : Payload × String) (h : CoveredUnit σ.files u) :
    CoveredUnit (runUnits us σ).files u := by
  obtain ⟨⟨rows, hrows⟩, hdays⟩ := h
  obtain ⟨ex, hex⟩ := runUnits_entry_mono us σ hrows
  refine ⟨⟨rows ++ ex, hex⟩, ?_⟩
  intro d hd
  have hmem := hdays d hd
  rw [hrows] at hmem
  have hmem' : (d.date, upperStr u.2) ∈ rows.map keyOf := hmem
  rw [hex]
  have : (d.date, upperStr u.2) ∈ (rows ++ ex).map keyOf := by
    rw [List.map_append]
    exact List.mem_append_left _ hmem'
  exact this

theorem run1_spec (units : List (Payload × String)) :
    ∀ σ : EtlState, RowsOK σ.files → LedSub σ → (∀ u ∈ units, UnitOK u) →
    RowsOK (runUnits units σ).files ∧ LedSub (runUnits units σ) ∧
      ∀ u ∈ units, CoveredUnit (runUnits units σ).files u := by
  induction units with
  | nil =>
    intro σ h1 h2 _
    exact ⟨h1, h2, fun u hu => absurd hu (List.not_mem_nil u)⟩
  | cons u ut ih =>
    intro σ h1 h2 hOK
    have hu : UnitOK u := hOK u (List.mem_cons_self u ut)
    have h1' : RowsOK (processUnit σ u).files := RowsOK_eaw σ u.1 u.2 h1 hu.1 hu.2
    have h2' : LedSub (processUnit σ u) := LedSub_eaw σ u.1 u.2 h2
    have hcovu : CoveredUnit (processUnit σ u).files u := CoveredUnit_eaw σ u h2
    obtain ⟨ha, hb, hc⟩ :=
      ih (processUnit σ u) h1' h2' (fun v hv => hOK v (List.mem_cons_of_mem u hv))
    rw [runUnits_cons]
    refine ⟨ha, hb, ?_⟩
    intro v hv
    rcases List.mem_cons.mp hv with rfl | hvm
    · exact CoveredUnit_runUnits ut (processUnit σ v) v hcovu
    · exact hc v hvm

theorem run2_noop (units : List (Payload × String)) (F : List (String × List Row)) :
    ∀ R, (∀ u ∈ units, UnitOK u) → (∀ u ∈ units, CoveredUnit F u) → HydSub F R →
    (runUnits units ⟨F, R⟩).files = F ∧ HydSub F (runUnits units ⟨F, R⟩).recs := by
  induction units with
  | nil => intro R _ _ hh; exact ⟨rfl, hh⟩
  | cons u ut ih =>
    intro R hOK hcov hh
    have hu : UnitOK u := hOK u (List.mem_cons_self u ut)
    obtain ⟨⟨rows, hrows⟩, hdays⟩ := hcov u (List.mem_cons_self u ut)
    have hfile0 : ewFile0 ⟨F, R⟩ u.1 = rows := by
      unfold ewFile0
      rw [hrows]
      rfl
    have hled_sup : ∀ k ∈ hydrate rows, k ∈ ewLed0 ⟨F, R⟩ u.1 := by
      unfold ewLed0
      cases hR : lookupA (EtlState.mk F R).recs (cityOf u.1) with
      | some L =>
        intro k hk
        have := hh (cityOf u.1) L hR
        rw [hrows] at this
        exact this k hk
      | none =>
        intro k hk
        rw [hfile0]
        exact hk
    have hkeys : ∀ d ∈ u.1.forecastday,
        (d.date, upperStr u.2) ∈ (ewFile0 ⟨F, R⟩ u.1, ewLed0 ⟨F, R⟩ u.1).2 := by
      intro d hd
      refine hled_sup _ ?_
      have hmem := hdays d hd
      rw [hrows] at hmem
      have hmem' : (d.date, upperStr u.2) ∈ rows.map keyOf := hmem
      obtain ⟨r, hr, hkr⟩ := List.mem_map.mp hmem'
      exact (hydrate_mem rows _).mpr ⟨⟨hu.1 d hd, hu.2⟩, r, hr, hkr⟩
    have hnoop : ewRes ⟨F, R⟩ u.1 u.2 = (ewFile0 ⟨F, R⟩ u.1, ewLed0 ⟨F, R⟩ u.1) :=
      ewFold_noop u.1 u.2 u.1.forecastday _ hkeys
    have hstate : processUnit ⟨F, R⟩ u =
        ⟨F, setA (cityOf u.1) (ewLed0 ⟨F, R⟩ u.1) R⟩ := by
      show extract_and_write ⟨F, R⟩ u.1 u.2 = _
      rw [eaw_eq, hnoop]
      have hfiles : setA (cityOf u.1) (ewFile0 ⟨F, R⟩ u.1) F = F := by
        rw [hfile0]
        exact setA_id hrows
      rw [EtlState.mk.injEq]
      exact ⟨hfiles, rfl⟩
    rw [runUnits_cons, hstate]
    refine ih (setA (cityOf u.1) (ewLed0 ⟨F, R⟩ u.1) R)
      (fun v hv => hOK v (List.mem_cons_of_mem u hv))
      (fun v hv => hcov v (List.mem_cons_of_mem u hv)) ?_
    intro c L hL
    by_cases hc : c = cityOf u.1
    · subst hc
      rw [lookupA_setA_self] at hL
      obtain rfl := Option.some_inj.mp hL
      intro k hk
      rw [hrows] at hk
      exact hled_sup k hk
    · rw [lookupA_setA_other hc] at hL
      exact hh c L hL

theorem pipelineUnits_mode (netF : String → Nat → FetchOutcome)
    (netH : String → String → Nat → FetchOutcome) (dates cities : List String) :
    ∀ u ∈ pipelineUnits netF netH dates cities, u.2 = "forecast" ∨ u.2 = "history" := by
  intro u hu
  rcases List.mem_append.mp hu with h | h
  · left
    obtain ⟨c, _, hc⟩ := List.mem_filterMap.mp h
    cases hf : fetchPayload (netF c) with
    | none =>
      rw [hf, Option.map_none'] at hc
      exact absurd hc (Option.noConfusion)
    | some p =>
      rw [hf, Option.map_some'] at hc
      obtain rfl := Option.some_inj.mp hc
      rfl
  · right
    obtain ⟨ds, _, hds⟩ := List.mem_flatMap.mp h
    obtain ⟨c, _, hc⟩ := List.mem_filterMap.mp hds
    cases hf : fetchPayload (fun i => netH c ds i) with
    | none =>
      rw [hf, Option.map_none'] at hc
      exact absurd hc (Option.noConfusion)
    | some p =>
      rw [hf, Option.map_some'] at hc
      obtain rfl := Option.some_inj.mp hc
      rfl

theorem runUnits_idem (units : List (Payload × String))
    (hOK : ∀ u ∈ units, UnitOK u) :
    (runUnits units ⟨(runUnits units ⟨[], []⟩).files, []⟩).files
      = (runUnits units ⟨[], []⟩).files := by
  have h0rows : RowsOK (EtlState.mk [] []).files := by
    intro c r hr
    exact absurd hr (List.not_mem_nil r)
  have h0sub : LedSub ⟨[], []⟩ := by
    intro c L hL
    exact absurd hL (by simp [lookupA])
  obtain ⟨_, _, hcov⟩ := run1_spec units ⟨[], []⟩ h0rows h0sub hOK
  have hh : HydSub (runUnits units ⟨[], []⟩).files [] := by
    intro c L hL
    exact absurd hL (by simp [lookupA])
  exact (run2_noop units (runUnits units ⟨[], []⟩).files [] hOK hcov hh).1

def pC4 : Payload :=
  { location := { name := "A", country := "X" }
    current := none
    forecastday := [{ date := "", day := { mintemp_c := "1", maxtemp_c := "2", avghumidity := "3" } }] }

def netfC4 : String → Nat → FetchOutcome := fun _ _ => .ok pC4

def nethC4 : String → String → Nat → FetchOutcome := fun _ _ _ => .netErr .connectTimeout

/-- Claim C4 counterexample: with one city, a fixed forecast response
whose single forecast day has an empty date, and history fetches that all
fail, the first pipeline run writes one row, but a second run over the
same responses with a fresh ledger hydrated from the produced files
appends the row again (hydration drops the empty-keyed row), so the city
file is not byte-for-byte identical after the second run. -/
theorem C4_counterexample :
    (fileOf (runPipeline netfC4 nethC4 ["d1", "d2", "d3"] ["A"] ⟨[], []⟩) "A").length = 1 ∧
    (fileOf (runPipeline netfC4 nethC4 ["d1", "d2", "d3"] ["A"]
      ⟨(runPipeline netfC4 nethC4 ["d1", "d2", "d3"] ["A"] ⟨[], []⟩).files, []⟩) "A").length = 2 ∧
    ¬ ((runPipeline netfC4 nethC4 ["d1", "d2", "d3"] ["A"]
        ⟨(runPipeline netfC4 nethC4 ["d1", "d2", "d3"] ["A"] ⟨[], []⟩).files, []⟩).files
      = (runPipeline netfC4 nethC4 ["d1", "d2", "d3"] ["A"] ⟨[], []⟩).files) := by
  decide

/-- Claim C4 (amended): for every fixed set of API responses in which
every successfully fetched payload's forecast days all carry non-empty
dates, running the full pipeline a second time against the same responses
— with a fresh in-memory ledger hydrated from the files produced by the
first run — appends zero new rows, leaving each city file identical to
its state after the first run. -/
theorem C4_second_run_appends_nothing (netF : String → Nat → FetchOutcome)
    (netH : String → String → Nat → FetchOutcome) (dates cities : List String)
    (hdates : ∀ u ∈ pipelineUnits netF netH dates cities,
      ∀ d ∈ u.1.forecastday, d.date ≠ "") :
    (runPipeline netF netH dates cities
       ⟨(runPipeline netF netH dates cities ⟨[], []⟩).files, []⟩).files
      = (runPipeline netF netH dates cities ⟨[], []⟩).files := by
  have hOK : ∀ u ∈ pipelineUnits netF netH dates cities, UnitOK u := by
    intro u hu
    refine ⟨hdates u hu, ?_⟩
    rcases pipelineUnits_mode netF netH dates cities u hu with h | h <;> rw [h] <;> decide
  simp only [runPipeline_units]
  exact runUnits_idem (pipelineUnits netF netH dates cities) hOK

def pC4w : Payload :=
  { location := { name := "A", country := "X" }
    current := none
    forecastday := [{ date := "2026-04-01", day := { mintemp_c := "1", maxtemp_c := "2", avghumidity := "3" } }] }

def netfC4w : String → Nat → FetchOutcome := fun _ _ => .ok pC4w

theorem C4_witness :
    (runPipeline netfC4w nethC4 ["d1"] ["A"]
       ⟨(runPipeline netfC4w nethC4 ["d1"] ["A"] ⟨[], []⟩).files, []⟩).files
      = (runPipeline netfC4w nethC4 ["d1"] ["A"] ⟨[], []⟩).files :=
  C4_second_run_appends_nothing netfC4w nethC4 ["d1"] ["A"] (by decide)
